import Mathlib

/-!
# Verification of the cache-and-retry request layer of `whatmystarssays`

Shallow embedding of the reviewable core of the repository:

* `StorageService` (src/unnamed/part_001): a TTL cache layered on the
  browser's `localStorage`.  `localStorage` is modelled as a partial map
  `String → Option (Raw V)`; a stored raw string either round-trips
  through `JSON.parse` to a structured cache entry (`Raw.entry`) or fails
  to parse (`Raw.junk`).  `Date.now()` is passed explicitly as `now : Int`
  (milliseconds).
* `withRetry` (src/services/geminiService.ts, lines 29-39): the operation
  `fn` is modelled as a deterministic stream `Nat → Except E A` giving the
  outcome of its i-th invocation; the embedding returns the final result,
  the number of invocations performed, and the list of backoff delays
  requested (in order).
* `getCoordinates` / `getHoroscope` (same file): the cached remote calls,
  with the remote operation again a stream of outcomes.  The `if (cached)`
  truthiness test is modelled as presence (`Option.isSome`): the payloads
  flowing through these functions are decoded JSON objects, which are
  truthy in JavaScript exactly when present.
* `calculateNumerology` / `sumDigits` (src/components/NumerologyView.tsx,
  lines 38-64): digit-root numerology and the Loshu grid.
-/

namespace WhatMyStarsSays

/-- The raw string stored for a key either parses back to a cache entry
(`entry data timestamp expiry`, the JSON round-trip of the object written
by `save`) or is malformed (`junk`), in which case `JSON.parse` throws. -/
inductive Raw (V : Type) where
  | entry (data : V) (timestamp : Int) (expiry : Int)
  | junk
  deriving DecidableEq

/-- The browser `localStorage`, restricted to the string values this
service reads and writes. -/
def Store (V : Type) : Type := String → Option (Raw V)

/-- The empty storage. -/
def emptyStore (V : Type) : Store V := fun _ => none

/-- The constant `CACHE_PREFIX = 'jyotish_cache_'` (src/unnamed/part_001). -/
def CACHE_PREFIX : String := "jyotish_cache_"

/-- The full `localStorage` key used for cache key `k`. -/
def storageKey (k : String) : String := CACHE_PREFIX ++ k

/-- Embedding of `localStorage.setItem(CACHE_PREFIX + key, raw)`. -/
def setItem (st : Store V) (k : String) (r : Raw V) : Store V :=
  fun s => if s = storageKey k then some r else st s

/-- Embedding of `localStorage.removeItem(CACHE_PREFIX + key)`. -/
def removeItem (st : Store V) (k : String) : Store V :=
  fun s => if s = storageKey k then none else st s

/-- Embedding of `StorageService.save(key, data, ttlHours)` (src/unnamed/part_001,
lines 15-22): writes `{data, timestamp: Date.now(), expiry: ttlHours*60*60*1000}`. -/
def save (st : Store V) (key : String) (data : V) (ttlHours : Nat) (now : Int) :
    Store V :=
  setItem st key (Raw.entry data now ((ttlHours : Int) * 3600000))

/-- Embedding of `StorageService.get(key)` (src/unnamed/part_001, lines 27-43).
Returns the retrieved value (if any) together with the storage after the
call (the lazy removal of an expired entry is the only mutation).
`isExpired := Date.now() - entry.timestamp > entry.expiry`; removal and a
miss happen when `isExpired && entry.expiry !== -1`; a parse failure is
caught and yields `null` with no mutation. -/
def get (st : Store V) (key : String) (now : Int) : Option V × Store V :=
  match st (storageKey key) with
  | none => (none, st)
  | some Raw.junk => (none, st)
  | some (Raw.entry data timestamp expiry) =>
      if now - timestamp > expiry ∧ expiry ≠ -1 then
        (none, removeItem st key)
      else
        (some data, st)

/-- Embedding of `getSafeApiKey` (src/services/geminiService.ts, lines 11-15): reads
`process.env.API_KEY` (modelled as `Option String`, with the JavaScript
falsiness of the empty string) and throws `"API_KEY missing."` when it is
absent or empty. -/
def getSafeApiKey (env : Option String) : Except String String :=
  match env with
  | none => Except.error "API_KEY missing."
  | some k => if k = "" then Except.error "API_KEY missing." else Except.ok k

/-- Embedding of `withRetry` (src/services/geminiService.ts, lines 29-39), with an
explicit start index into the outcome stream `fn`:

```
async function withRetry<T>(fn, retries = 2, delay = 2000) {
  try { return await fn(); }
  catch (error) {
    if (retries > 0) {
      await sleep(delay);
      return withRetry(fn, retries - 1, delay * 2);
    }
    throw error;
  }
}
```

Returns the final outcome, the total number of invocations of `fn`, and
the list of backoff delays slept (in order). -/
def withRetryAux (fn : Nat → Except E A) (retries delay i : Nat) :
    Except E A × Nat × List Nat :=
  match fn i with
  | Except.ok a => (Except.ok a, 1, [])
  | Except.error e =>
      match retries with
      | 0 => (Except.error e, 1, [])
      | r + 1 =>
          let rest := withRetryAux fn r (delay * 2) (i + 1)
          (rest.1, rest.2.1 + 1, delay :: rest.2.2)

/-- The call `withRetry(fn, retries, delay)` run from the first invocation, with the
source's default arguments `retries = 2`, `delay = 2000`. -/
def withRetry (fn : Nat → Except E A) (retries : Nat := 2)
    (delay : Nat := 2000) : Except E A × Nat × List Nat :=
  withRetryAux fn retries delay 0

/-- Embedding of `StorageService.getKeys.horoscope(sign, timeframe, lang)`
(src/unnamed/part_001, line 49). -/
def horoscopeKey (sign timeframe lang : String) : String :=
  "horo_" ++ sign ++ "_" ++ timeframe ++ "_" ++ lang

/-- JavaScript `\s` on the characters this application feeds it (ASCII
whitespace). -/
def jsWhitespace (c : Char) : Bool :=
  c = ' ' || c = '\t' || c = '\n' || c = '\r' || c = '\x0b' || c = '\x0c'

/-- Embedding of `location.toLowerCase().replace(/\s/g, '_')`
(src/services/geminiService.ts, line 42). -/
def normalizeLocation (loc : String) : String :=
  String.mk (((loc.toList.map Char.toLower)).map
    (fun c => if jsWhitespace c then '_' else c))

/-- The coordinates cache key `` `coords_${location.toLowerCase().replace(/\s/g, '_')}` ``. -/
def coordsKey (loc : String) : String :=
  "coords_" ++ normalizeLocation loc

/-- The TTL (hours) chosen by `getHoroscope`:
`timeframe === 'daily' ? 12 : 168` (src/services/geminiService.ts, line 94). -/
def horoscopeTtl (timeframe : String) : Nat :=
  if timeframe = "daily" then 12 else 168

/-- Embedding of `getHoroscope(sign, timeframe, language)`
(src/services/geminiService.ts, lines 60-96): check the cache under the
derived key; on a hit return the cached value (no remote invocation); on a
miss run the remote operation through `withRetry` with the default policy,
and on success save the result with the timeframe-dependent TTL before
returning it; on failure propagate the error with no save.  Returns the
outcome, the storage after the call, and the number of remote invocations. -/
def getHoroscope (st : Store V) (sign timeframe lang : String)
    (remote : Nat → Except E V) (now : Int) :
    Except E V × Store V × Nat :=
  let cacheKey := horoscopeKey sign timeframe lang
  match get st cacheKey now with
  | (some cached, st') => (Except.ok cached, st', 0)
  | (none, st') =>
      match withRetry remote with
      | (Except.ok result, cnt, _) =>
          (Except.ok result, save st' cacheKey result (horoscopeTtl timeframe) now, cnt)
      | (Except.error e, cnt, _) => (Except.error e, st', cnt)

/-- Embedding of `getCoordinates(location)` (src/services/geminiService.ts, lines 41-58):
same template as `getHoroscope`, with key `coordsKey location` and a
720-hour TTL. -/
def getCoordinates (st : Store V) (location : String)
    (remote : Nat → Except E V) (now : Int) :
    Except E V × Store V × Nat :=
  let cacheKey := coordsKey location
  match get st cacheKey now with
  | (some cached, st') => (Except.ok cached, st', 0)
  | (none, st') =>
      match withRetry remote with
      | (Except.ok result, cnt, _) =>
          (Except.ok result, save st' cacheKey result 720 now, cnt)
      | (Except.error e, cnt, _) => (Except.error e, st', cnt)

/-! ## Numerology (src/components/NumerologyView.tsx, lines 38-64)

Strings are modelled as `List Char`; a JavaScript number that may be `NaN`
is modelled as `Option Nat` (`none` = `NaN`), since every numeric value
reached here is a nonnegative integer when it is not `NaN`. -/

/-- Decimal digit characters. -/
def isDigitChar (c : Char) : Bool := '0' ≤ c && c ≤ '9'

/-- The numeric value of a decimal digit character. -/
def digitVal (c : Char) : Nat := c.toNat - '0'.toNat

/-- The decimal digit sum `num.toString().split('').reduce((acc, d) => acc + parseInt(d), 0)`
of a natural number, written with explicit fuel (the first argument) so
that it is structurally recursive; `digitSum` supplies adequate fuel. -/
def digitSumAux : Nat → Nat → Nat
  | 0, _ => 0
  | fuel + 1, n => if n = 0 then 0 else n % 10 + digitSumAux fuel (n / 10)

/-- The decimal digit sum of `n`. -/
def digitSum (n : Nat) : Nat := digitSumAux n n

/-- Embedding of `sumDigits` (src/components/NumerologyView.tsx, lines 43-46):

```
const sumDigits = (num) => {
  let sum = num.toString().split('').reduce((acc, digit) => acc + parseInt(digit), 0);
  return sum > 9 ? sumDigits(sum) : sum;
};
```

written with explicit fuel so that it is structurally recursive;
`sumDigits` supplies adequate fuel (`digitSum n < n` whenever another
round is needed). -/
def sumDigitsAux : Nat → Nat → Nat
  | 0, n => digitSum n
  | fuel + 1, n =>
      if 9 < digitSum n then sumDigitsAux fuel (digitSum n) else digitSum n

/-- The iterated digit sum (digit root) computed by `sumDigits`. -/
def sumDigits (n : Nat) : Nat := sumDigitsAux n n

/-- Embedding of `dateStr.split('-')`. -/
def splitOnDash : List Char → List (List Char)
  | [] => [[]]
  | c :: cs =>
      if c = '-' then [] :: splitOnDash cs
      else
        match splitOnDash cs with
        | [] => [[c]]
        | p :: ps => (c :: p) :: ps

/-- JavaScript `parseInt` on the strings this component feeds it: the
longest digit prefix is parsed; an empty digit prefix (including
`parseInt(undefined)`, modelled as the empty list) yields `NaN`. -/
def parseIntJS (s : List Char) : Option Nat :=
  let pre := s.takeWhile isDigitChar
  if pre.isEmpty then none
  else some (pre.foldl (fun acc c => 10 * acc + digitVal c) 0)

/-- JavaScript `Number(c)` on a single character: a digit character maps
to its value, whitespace coerces to `0`, anything else is `NaN`. -/
def jsNumberChar (c : Char) : Option Nat :=
  if isDigitChar c then some (digitVal c)
  else if jsWhitespace c then some 0
  else none

/-- One step of
`reduce((acc, digit) => acc + parseInt(digit), 0)`: `NaN` poisons the sum. -/
def jsAddParse (acc : Option Nat) (c : Char) : Option Nat :=
  match acc, (if isDigitChar c then some (digitVal c) else none) with
  | some a, some d => some (a + d)
  | _, _ => none

/-- The predicate of `dateStr.replace(dash regex, '')`: keep every
character that is not a dash. -/
def notDash (c : Char) : Bool := c ≠ '-'

/-- Embedding of `dateStr.replace(dash regex, '').split('').reduce((acc, digit) => acc + parseInt(digit), 0)`. -/
def fullSum (dateStr : List Char) : Option Nat :=
  (dateStr.filter notDash).foldl jsAddParse (some 0)

/-- The fixed Loshu layout `[[4,9,2],[3,5,7],[8,1,6]]`. -/
def gridLayout : List (List Nat) := [[4, 9, 2], [3, 5, 7], [8, 1, 6]]

/-- Embedding of `dateStr.replace(dash regex, '').split('').map(Number)`. -/
def dateNumbers (dateStr : List Char) : List (Option Nat) :=
  (dateStr.filter notDash).map jsNumberChar

/-- Embedding of `gridLayout.map(row => row.map(num => digits.includes(num) ? num : null))`. -/
def loshuGrid (dateStr : List Char) : List (List (Option Nat)) :=
  gridLayout.map (fun row =>
    row.map (fun num => if some num ∈ dateNumbers dateStr then some num else none))

/-- The record returned by `calculateNumerology`. -/
structure NumerologyData where
  mulank : Option Nat
  bhagyank : Option Nat
  loshu : List (List (Option Nat))

/-- Embedding of `calculateNumerology(dateStr)` (src/components/NumerologyView.tsx,
lines 38-64): `null` on the empty string; otherwise
`mulank = sumDigits(parseInt(parts[2]))`, `bhagyank = sumDigits(fullSum)`,
and the Loshu grid.  `sumDigits` of `NaN` is `NaN` (the digit-sum of the
string `"NaN"` is `NaN`, and `NaN > 9` is false), hence the `Option.map`. -/
def calculateNumerology (dateStr : List Char) : Option NumerologyData :=
  if dateStr.isEmpty then none
  else
    let parts := splitOnDash dateStr
    let day := parts.getD 2 []
    some { mulank := (parseIntJS day).map sumDigits,
           bhagyank := (fullSum dateStr).map sumDigits,
           loshu := loshuGrid dateStr }

/-! ## Facts about the retry wrapper -/

/-- Unfolding `withRetryAux` when the current invocation succeeds. -/
lemma withRetryAux_fnOk (fn : Nat → Except E A) (m d i : Nat) (a : A)
    (hfs : fn i = Except.ok a) :
    withRetryAux fn m d i = (Except.ok a, 1, []) := by
  rw [withRetryAux.eq_def, hfs]

/-- Unfolding `withRetryAux` when the current invocation fails with no
attempts left. -/
lemma withRetryAux_fnErr_zero (fn : Nat → Except E A) (d i : Nat) (e : E)
    (hfs : fn i = Except.error e) :
    withRetryAux fn 0 d i = (Except.error e, 1, []) := by
  rw [withRetryAux.eq_def, hfs]

/-- Unfolding `withRetryAux` when the current invocation fails with
attempts remaining. -/
lemma withRetryAux_fnErr_succ (fn : Nat → Except E A) (m d i : Nat) (e : E)
    (hfs : fn i = Except.error e) :
    withRetryAux fn (m + 1) d i =
      ((withRetryAux fn m (d * 2) (i + 1)).1,
       (withRetryAux fn m (d * 2) (i + 1)).2.1 + 1,
       d :: (withRetryAux fn m (d * 2) (i + 1)).2.2) := by
  rw [withRetryAux.eq_def, hfs]

/-- Prepending the first backoff delay to a doubled geometric schedule
gives the geometric schedule one step longer. -/
lemma geom_cons (d L : Nat) :
    d :: (List.range L).map (fun k => d * 2 * 2 ^ k) =
      (List.range (L + 1)).map (fun k => d * 2 ^ k) := by
  have hf : ((fun k => d * 2 ^ k) ∘ Nat.succ) = fun k => d * 2 * 2 ^ k := by
    funext k
    simp only [Function.comp_apply, pow_succ]
    ring
  rw [List.range_succ_eq_map, List.map_cons, List.map_map, hf]
  simp

/-- On an operation that fails at every invocation, `withRetry` performs
exactly `retries + 1` invocations, returns the outcome of the last one,
and sleeps the geometric backoff schedule. -/
lemma withRetryAux_allFail (fn : Nat → Except E A)
    (h : ∀ i, ∃ e, fn i = Except.error e) :
    ∀ (m d s : Nat), withRetryAux fn m d s =
      (fn (s + m), m + 1, (List.range m).map (fun k => d * 2 ^ k)) := by
  intro m
  induction m with
  | zero =>
      intro d s
      obtain ⟨e, he⟩ := h s
      rw [withRetryAux_fnErr_zero fn d s e he]
      simp [he]
  | succ m ih =>
      intro d s
      obtain ⟨e, he⟩ := h s
      rw [withRetryAux_fnErr_succ fn m d s e he, ih (d * 2) (s + 1)]
      dsimp only
      rw [geom_cons]
      have hs : s + 1 + m = s + (m + 1) := by omega
      rw [hs]

/-- The backoff-delay schedule of any `withRetry` run is a prefix of the
geometric sequence `d, 2d, 4d, …`. -/
lemma withRetryAux_delays (fn : Nat → Except E A) :
    ∀ (m d s : Nat), ∃ L, (withRetryAux fn m d s).2.2 =
      (List.range L).map (fun k => d * 2 ^ k) := by
  intro m
  induction m with
  | zero =>
      intro d s
      refine ⟨0, ?_⟩
      cases hfs : fn s with
      | ok a => rw [withRetryAux_fnOk fn 0 d s a hfs]; rfl
      | error e => rw [withRetryAux_fnErr_zero fn d s e hfs]; rfl
  | succ m ih =>
      intro d s
      cases hfs : fn s with
      | ok a => exact ⟨0, by rw [withRetryAux_fnOk fn (m + 1) d s a hfs]; rfl⟩
      | error e =>
          obtain ⟨L, hL⟩ := ih (d * 2) (s + 1)
          refine ⟨L + 1, ?_⟩
          rw [withRetryAux_fnErr_succ fn m d s e hfs]
          dsimp only
          rw [hL]
          exact geom_cons d L

/-- Claim C2: for an operation that fails on every invocation and any
retry budget `maxAttempts`, `withRetry` invokes the operation exactly
`1 + maxAttempts` times and raises exactly one error: the failure
produced by the operation's final invocation, unchanged. -/
theorem claim_C2_retry_exhaustion (fn : Nat → Except E A) (m d : Nat)
    (h : ∀ i, ∃ e, fn i = Except.error e) :
    (withRetry fn m d).2.1 = 1 + m ∧
    (withRetry fn m d).1 = fn m ∧
    ∃ e, fn m = Except.error e ∧ (withRetry fn m d).1 = Except.error e := by
  have hall := withRetryAux_allFail fn h m d 0
  rw [Nat.zero_add] at hall
  obtain ⟨e, he⟩ := h m
  unfold withRetry
  rw [hall]
  exact ⟨by simp [Nat.add_comm], rfl, e, he, by simp [he]⟩

/-- Claim C2, witnessed on the always-failing operation
`fun i => Except.error "boom"` with `maxAttempts = 2`. -/
theorem claim_C2_retry_exhaustion_witness :
    (withRetry (fun _ => (Except.error "boom" : Except String Nat)) 2 2000).2.1 = 1 + 2 ∧
    (withRetry (fun _ => (Except.error "boom" : Except String Nat)) 2 2000).1 =
      Except.error "boom" :=
  ⟨(claim_C2_retry_exhaustion _ 2 2000 (fun _ => ⟨"boom", rfl⟩)).1,
   (claim_C2_retry_exhaustion _ 2 2000 (fun _ => ⟨"boom", rfl⟩)).2.1⟩

/-- Claim C4 counterexample: `withRetry` applies no terminal-error
classification.  An operation that always fails with the designated
configuration error thrown by `getSafeApiKey` (missing credentials,
`"API_KEY missing."`) is invoked 3 times under the default policy
(`maxAttempts = 2`) rather than exactly once, with backoff sleeps in
between — the claim predicts a single invocation with no retry. -/
theorem claim_C4_counterexample :
    getSafeApiKey none = Except.error "API_KEY missing." ∧
    withRetry (fun _ => (Except.error "API_KEY missing." : Except String Nat)) 2 2000 =
      (Except.error "API_KEY missing.", 3, [2000, 4000]) ∧
    (3 : Nat) ≠ 1 := by
  refine ⟨rfl, rfl, by decide⟩

/-- Claim C4 amended: `withRetry` does not classify failures; an operation
failing with the terminal/configuration missing-API-key error is retried
like any other failure — it is invoked exactly `1 + maxAttempts` times and
the error is surfaced unchanged only after the attempts are exhausted,
regardless of the retry budget. -/
theorem claim_C4_no_terminal_short_circuit (A : Type) (m d : Nat) :
    (withRetry (fun _ => (Except.error "API_KEY missing." : Except String A)) m d).2.1
        = 1 + m ∧
    (withRetry (fun _ => (Except.error "API_KEY missing." : Except String A)) m d).1
        = Except.error "API_KEY missing." := by
  have hall := withRetryAux_allFail
    (fun _ => (Except.error "API_KEY missing." : Except String A))
    (fun _ => ⟨"API_KEY missing.", rfl⟩) m d 0
  unfold withRetry
  rw [hall]
  exact ⟨by simp [Nat.add_comm], rfl⟩

/-- Claim C7: with `maxAttempts ≥ 2`, an operation that fails on its first
two invocations and succeeds on the third is invoked exactly 3 times;
`withRetry` returns the success value, and the two backoff delays
requested are `initialDelay` and `initialDelay × 2` (the source's
hard-coded backoff multiplier); in general the k-th delay requested in
any run is `initialDelay × 2 ^ k` (i.e. the delay before attempt `n + 1`
is `initialDelay × 2 ^ (n - 1)`). -/
theorem claim_C7_retry_success (fn : Nat → Except E A) (r d : Nat) (a : A)
    (e0 e1 : E) (hr : 2 ≤ r) (h0 : fn 0 = Except.error e0)
    (h1 : fn 1 = Except.error e1) (h2 : fn 2 = Except.ok a) :
    withRetry fn r d = (Except.ok a, 3, [d, d * 2]) ∧
    ∀ (fn' : Nat → Except E A) (m d' s k x : Nat),
      ((withRetryAux fn' m d' s).2.2).get? k = some x → x = d' * 2 ^ k := by
  constructor
  · obtain ⟨r', rfl⟩ : ∃ r', r = r' + 2 := ⟨r - 2, by omega⟩
    unfold withRetry
    rw [withRetryAux_fnErr_succ fn (r' + 1) d 0 e0 h0]
    rw [withRetryAux_fnErr_succ fn r' (d * 2) 1 e1 h1]
    rw [withRetryAux_fnOk fn r' (d * 2 * 2) 2 a h2]
  · intro fn' m d' s k x hx
    obtain ⟨L, hL⟩ := withRetryAux_delays fn' m d' s
    rw [hL, List.get?_map] at hx
    rcases Option.map_eq_some'.mp hx with ⟨y, hy, hxy⟩
    have hkL : k < L := by
      by_contra hk
      rw [List.get?_eq_none.mpr (by simpa using Nat.le_of_not_lt hk)] at hy
      exact Option.noConfusion hy
    rw [List.get?_range hkL] at hy
    cases hy
    exact hxy.symm

/-- Claim C7, witnessed on an operation that fails twice and then
succeeds, and on the second delay of a concrete exhausted run. -/
theorem claim_C7_retry_success_witness :
    withRetry (fun i => if i = 2 then Except.ok 7 else (Except.error "e" : Except String Nat))
        2 2000 = (Except.ok 7, 3, [2000, 2000 * 2]) ∧
    (4000 : Nat) = 2000 * 2 ^ 1 :=
  ⟨(claim_C7_retry_success _ 2 2000 7 "e" "e" (by decide) rfl rfl rfl).1,
   (claim_C7_retry_success
      (fun i => if i = 2 then Except.ok 7 else (Except.error "e" : Except String Nat))
      2 2000 7 "e" "e" (by decide) rfl rfl rfl).2
     (fun _ => Except.error "e") 2 2000 0 1 4000 (by decide)⟩

/-! ## Facts about the TTL cache -/

/-- Claim C1 counterexample: the validity bound is not strict.  With
`ttl = 1` hour, an entry saved at time 0 is still returned by `get` at
elapsed time exactly `3600000` ms (one hour), although
`now - storedAt < timeToLive` fails there — the claim predicts an absent
result and removal once the bound is reached. -/
theorem claim_C1_counterexample :
    (get (save (emptyStore Nat) "k" 5 1 0) "k" 3600000).1 = some 5 ∧
    ¬ ((3600000 : Int) - 0 < (1 : Int) * 3600000) := by
  refine ⟨by decide, by decide⟩

/-- Claim C1 amended: after `save(k, v, t)` at time `t0` with `t > 0`
hours, `get(k)` at time `now` returns `v` exactly when the elapsed time
is at most `t` hours (`now - t0 ≤ t·3600000` ms, a non-strict bound:
the code tests `now - storedAt > expiry`); once the elapsed time strictly
exceeds the bound, `get(k)` returns absent and removes the entry; and an
entry whose stored expiry equals the reserved infinite sentinel `-1` is
returned regardless of elapsed time. -/
theorem claim_C1_ttl_validity (V : Type) (st : Store V) (k : String) (v : V)
    (t : Nat) (ht : 0 < t) (t0 now : Int) :
    ((get (save st k v t t0) k now).1 = some v ↔ now - t0 ≤ (t : Int) * 3600000) ∧
    (now - t0 > (t : Int) * 3600000 →
      get (save st k v t t0) k now = (none, removeItem (save st k v t t0) k)) ∧
    (∀ (st' : Store V) (k' : String) (v' : V) (ts : Int),
      st' (storageKey k') = some (Raw.entry v' ts (-1)) →
      (get st' k' now).1 = some v') := by
  have hkey : save st k v t t0 (storageKey k) =
      some (Raw.entry v t0 ((t : Int) * 3600000)) := by
    simp [save, setItem]
  have hne : ((t : Int) * 3600000) ≠ -1 := by
    have : (0 : Int) ≤ (t : Int) * 3600000 := by positivity
    omega
  refine ⟨?_, ?_, ?_⟩
  · simp only [get, hkey]
    constructor
    · intro hv
      by_contra hlt
      simp [show now - t0 > (t : Int) * 3600000 ∧ ((t : Int) * 3600000) ≠ -1 from
        ⟨by omega, hne⟩] at hv
    · intro hle
      simp [show ¬ (now - t0 > (t : Int) * 3600000 ∧ ((t : Int) * 3600000) ≠ -1) from
        fun h => absurd h.1 (by omega)]
  · intro hgt
    simp only [get, hkey]
    simp [show now - t0 > (t : Int) * 3600000 ∧ ((t : Int) * 3600000) ≠ -1 from ⟨hgt, hne⟩]
  · intro st' k' v' ts hst'
    simp [get, hst']

/-- Claim C1 amended, witnessed at the expiry boundary (`t = 1` hour,
elapsed exactly one hour: still returned), just past it (elapsed one
hour plus 1 ms: absent and removed), and on a sentinel entry. -/
theorem claim_C1_ttl_validity_witness :
    ((get (save (emptyStore Nat) "k" 5 1 0) "k" 3600000).1 = some 5 ↔
      (3600000 : Int) - 0 ≤ (1 : Int) * 3600000) ∧
    (get (save (emptyStore Nat) "k" 5 1 0) "k" 3600001 =
      (none, removeItem (save (emptyStore Nat) "k" 5 1 0) "k")) ∧
    ((get (setItem (emptyStore Nat) "k" (Raw.entry 5 0 (-1))) "k" 99999999).1 = some 5) :=
  ⟨(claim_C1_ttl_validity Nat (emptyStore Nat) "k" 5 1 (by decide) 0 3600000).1,
   (claim_C1_ttl_validity Nat (emptyStore Nat) "k" 5 1 (by decide) 0 3600001).2.1
     (by decide),
   (claim_C1_ttl_validity Nat (emptyStore Nat) "k" 5 1 (by decide) 0 99999999).2.2
     (setItem (emptyStore Nat) "k" (Raw.entry 5 0 (-1))) "k" 5 0 (by decide)⟩

/-- A storage holding a single malformed record under cache key `k`. -/
def junkStore : Store Nat :=
  fun s => if s = storageKey "k" then some Raw.junk else none

/-- Claim C3 counterexample: a malformed stored record is NOT removed.
`get` on the corrupted key returns absent, but the broken record is still
present in storage afterwards — the claim predicts its removal. -/
theorem claim_C3_counterexample :
    (get junkStore "k" 0).1 = none ∧
    (get junkStore "k" 0).2 (storageKey "k") = some Raw.junk := by
  refine ⟨by decide, by decide⟩

/-- Claim C3 amended: for a key whose stored record is not parseable as a
cache entry, `get` returns absent without raising (the parse failure is
caught), leaves the broken record in place (the storage is unchanged),
and `get` on every other key is unaffected. -/
theorem claim_C3_corrupt_entry (V : Type) (st : Store V) (k : String)
    (now : Int) (h : st (storageKey k) = some Raw.junk) :
    get st k now = (none, st) ∧
    (∀ k', (get st k now).2 (storageKey k') = st (storageKey k')) ∧
    (∀ k' now', get ((get st k now).2) k' now' = get st k' now') := by
  have hg : get st k now = (none, st) := by simp [get, h]
  exact ⟨hg, fun k' => by rw [hg], fun k' now' => by rw [hg]⟩

/-- Claim C3 amended, witnessed on a concrete corrupted store. -/
theorem claim_C3_corrupt_entry_witness :
    get junkStore "k" 0 = (none, junkStore) ∧
    (get junkStore "other" 5).1 = none :=
  ⟨(claim_C3_corrupt_entry Nat junkStore "k" 0 (by decide)).1, by decide⟩

/-! ## Facts about the cached remote calls -/

/-- On a cache hit, `getHoroscope` returns the cached value with zero
remote invocations. -/
lemma getHoroscope_hit (st : Store V) (sign tf lang : String)
    (remote : Nat → Except E V) (now : Int) (v : V) (st1 : Store V)
    (hget : get st (horoscopeKey sign tf lang) now = (some v, st1)) :
    getHoroscope st sign tf lang remote now = (Except.ok v, st1, 0) := by
  simp only [getHoroscope]
  rw [hget]

/-- On a cache miss with a successful retried remote call, `getHoroscope`
saves the fresh result under the derived key with the
timeframe-dependent TTL and returns it. -/
lemma getHoroscope_miss_ok (st : Store V) (sign tf lang : String)
    (remote : Nat → Except E V) (now : Int) (st1 : Store V) (r : V)
    (cnt : Nat) (ds : List Nat)
    (hget : get st (horoscopeKey sign tf lang) now = (none, st1))
    (hr : withRetry remote = (Except.ok r, cnt, ds)) :
    getHoroscope st sign tf lang remote now =
      (Except.ok r, save st1 (horoscopeKey sign tf lang) r (horoscopeTtl tf) now, cnt) := by
  simp only [getHoroscope]
  rw [hget, hr]

/-- On a cache miss with a failing retried remote call, `getHoroscope`
propagates the error and performs no save. -/
lemma getHoroscope_miss_err (st : Store V) (sign tf lang : String)
    (remote : Nat → Except E V) (now : Int) (st1 : Store V) (e : E)
    (cnt : Nat) (ds : List Nat)
    (hget : get st (horoscopeKey sign tf lang) now = (none, st1))
    (hr : withRetry remote = (Except.error e, cnt, ds)) :
    getHoroscope st sign tf lang remote now = (Except.error e, st1, cnt) := by
  simp only [getHoroscope]
  rw [hget, hr]

/-- On a cache miss with a failing retried remote call, `getCoordinates`
propagates the error and performs no save. -/
lemma getCoordinates_miss_err (st : Store V) (loc : String)
    (remote : Nat → Except E V) (now : Int) (st1 : Store V) (e : E)
    (cnt : Nat) (ds : List Nat)
    (hget : get st (coordsKey loc) now = (none, st1))
    (hr : withRetry remote = (Except.error e, cnt, ds)) :
    getCoordinates st loc remote now = (Except.error e, st1, cnt) := by
  simp only [getCoordinates]
  rw [hget, hr]

/-- Reading a freshly saved entry within its validity window returns the
saved value and leaves the storage unchanged. -/
lemma get_save_fresh (st : Store V) (k : String) (v : V) (t : Nat)
    (now now2 : Int) (h : now2 - now ≤ (t : Int) * 3600000) :
    get (save st k v t now) k now2 = (some v, save st k v t now) := by
  have hkey : save st k v t now (storageKey k) =
      some (Raw.entry v now ((t : Int) * 3600000)) := by
    simp [save, setItem]
  simp only [get, hkey]
  simp [show ¬ (now2 - now > (t : Int) * 3600000 ∧ ((t : Int) * 3600000) ≠ -1) from
    fun hc => absurd hc.1 (by omega)]

/-- The lookup `get` changes the storage at most by removing the entry at
its own derived key. -/
lemma get_store_effect (st : Store V) (k : String) (now : Int) :
    (get st k now).2 = st ∨
    ((get st k now).2 (storageKey k) = none ∧
      ∀ s, s ≠ storageKey k → (get st k now).2 s = st s) := by
  cases hst : st (storageKey k) with
  | none => left; simp [get, hst]
  | some raw =>
      cases raw with
      | junk => left; simp [get, hst]
      | entry data timestamp expiry =>
          by_cases hc : now - timestamp > expiry ∧ expiry ≠ -1
          · right
            constructor
            · simp [get, hst, hc, removeItem]
            · intro s hs
              simp [get, hst, hc, removeItem, hs]
          · left
            simp [get, hst, hc]

/-- Claim C5: if a valid (unexpired) cache entry exists for the derived
horoscope key, `getHoroscope` returns the cached value with zero remote
invocations (no retry logic); on a miss with a successful remote call the
fresh result is stored under the derived key with TTL
`horoscopeTtl timeframe` — 12 hours (≤ 24) for the daily timeframe —
before being returned, and repeating the identical request before expiry
returns the same value with no further remote invocation. -/
theorem claim_C5_cache_hit_and_store (V E : Type) (st : Store V)
    (sign tf lang : String) (remote : Nat → Except E V) (now : Int) :
    (∀ (v : V) (st1 : Store V),
      get st (horoscopeKey sign tf lang) now = (some v, st1) →
      getHoroscope st sign tf lang remote now = (Except.ok v, st1, 0)) ∧
    (∀ (st1 : Store V) (r : V) (cnt : Nat) (ds : List Nat),
      get st (horoscopeKey sign tf lang) now = (none, st1) →
      withRetry remote = (Except.ok r, cnt, ds) →
      getHoroscope st sign tf lang remote now =
        (Except.ok r, save st1 (horoscopeKey sign tf lang) r (horoscopeTtl tf) now, cnt) ∧
      horoscopeTtl "daily" = 12 ∧ horoscopeTtl "daily" ≤ 24 ∧
      (∀ (remote2 : Nat → Except E V) (now2 : Int),
        now2 - now ≤ ((horoscopeTtl tf : Nat) : Int) * 3600000 →
        getHoroscope (save st1 (horoscopeKey sign tf lang) r (horoscopeTtl tf) now)
            sign tf lang remote2 now2 =
          (Except.ok r,
           save st1 (horoscopeKey sign tf lang) r (horoscopeTtl tf) now, 0))) := by
  refine ⟨fun v st1 hget => getHoroscope_hit st sign tf lang remote now v st1 hget,
    fun st1 r cnt ds hget hr => ⟨?_, rfl, by decide, ?_⟩⟩
  · exact getHoroscope_miss_ok st sign tf lang remote now st1 r cnt ds hget hr
  · intro remote2 now2 hnow2
    exact getHoroscope_hit _ sign tf lang remote2 now2 r _
      (get_save_fresh st1 (horoscopeKey sign tf lang) r (horoscopeTtl tf) now now2 hnow2)

/-- Claim C5, witnessed end to end on `("Aries", "daily", "English")`:
miss on the empty cache, one remote invocation, result saved with the
12-hour TTL, and an identical repeat one second later served from the
cache with zero remote invocations. -/
theorem claim_C5_cache_hit_and_store_witness :
    (getHoroscope (emptyStore Nat) "Aries" "daily" "English"
        (fun _ => (Except.ok 7 : Except String Nat)) 0 =
      (Except.ok 7,
       save (emptyStore Nat) (horoscopeKey "Aries" "daily" "English") 7
         (horoscopeTtl "daily") 0, 1)) ∧
    horoscopeTtl "daily" = 12 ∧ horoscopeTtl "daily" ≤ 24 ∧
    (getHoroscope
        (save (emptyStore Nat) (horoscopeKey "Aries" "daily" "English") 7
          (horoscopeTtl "daily") 0)
        "Aries" "daily" "English" (fun _ => (Except.error "down" : Except String Nat)) 1000 =
      (Except.ok 7,
       save (emptyStore Nat) (horoscopeKey "Aries" "daily" "English") 7
         (horoscopeTtl "daily") 0, 0)) := by
  have h := (claim_C5_cache_hit_and_store Nat String (emptyStore Nat)
      "Aries" "daily" "English" (fun _ => (Except.ok 7 : Except String Nat)) 0).2
      (emptyStore Nat) 7 1 [] rfl rfl
  exact ⟨h.1, h.2.1, h.2.2.1, h.2.2.2 (fun _ => (Except.error "down" : Except String Nat))
    1000 (by decide)⟩

/-- A storage holding an already-expired horoscope entry for
`("Aries", "daily", "English")`. -/
def expiredStore : Store Nat :=
  fun s =>
    if s = storageKey (horoscopeKey "Aries" "daily" "English") then
      some (Raw.entry 42 0 3600000)
    else none

/-- Claim C6 counterexample: when the remote call fails after retries, the
cache state for the derived key is NOT always exactly what it was before
the call — an already-expired entry under the key is removed by the
lookup.  Here the key held an entry before the failing call and holds
nothing afterwards. -/
theorem claim_C6_counterexample :
    (getHoroscope expiredStore "Aries" "daily" "English"
        (fun _ => (Except.error "boom" : Except String Nat)) 7200001).1 =
      Except.error "boom" ∧
    (getHoroscope expiredStore "Aries" "daily" "English"
        (fun _ => (Except.error "boom" : Except String Nat)) 7200001).2.1
        (storageKey (horoscopeKey "Aries" "daily" "English")) = none ∧
    expiredStore (storageKey (horoscopeKey "Aries" "daily" "English")) =
      some (Raw.entry 42 0 3600000) := by
  refine ⟨rfl, rfl, rfl⟩

/-- Claim C6 amended: when a cached domain operation (`getHoroscope`,
`getCoordinates`) reaches the remote call (cache miss) and the retried
call ultimately fails, the error propagates to the caller unchanged and
no value is written: the cache after the call is exactly the cache
produced by the initial lookup, which differs from the pre-call cache at
most by the lazy removal of an already-expired entry at the derived key. -/
theorem claim_C6_failure_no_write (V E : Type) (st : Store V)
    (sign tf lang loc : String) (remote remote2 : Nat → Except E V)
    (now : Int) (e : E) (cnt : Nat) (ds : List Nat) :
    (∀ st1, get st (horoscopeKey sign tf lang) now = (none, st1) →
      withRetry remote = (Except.error e, cnt, ds) →
      getHoroscope st sign tf lang remote now = (Except.error e, st1, cnt)) ∧
    (∀ st1, get st (coordsKey loc) now = (none, st1) →
      withRetry remote2 = (Except.error e, cnt, ds) →
      getCoordinates st loc remote2 now = (Except.error e, st1, cnt)) ∧
    (∀ (st' : Store V) (k : String),
      (get st' k now).2 = st' ∨
      ((get st' k now).2 (storageKey k) = none ∧
        ∀ s, s ≠ storageKey k → (get st' k now).2 s = st' s)) := by
  refine ⟨fun st1 hget hr =>
      getHoroscope_miss_err st sign tf lang remote now st1 e cnt ds hget hr,
    fun st1 hget hr =>
      getCoordinates_miss_err st loc remote2 now st1 e cnt ds hget hr,
    fun st' k => get_store_effect st' k now⟩

/-- Claim C6 amended, witnessed on the empty cache with an always-failing
remote operation, for both domain operations. -/
theorem claim_C6_failure_no_write_witness :
    getHoroscope (emptyStore Nat) "Aries" "daily" "English"
        (fun _ => (Except.error "boom" : Except String Nat)) 0 =
      (Except.error "boom", emptyStore Nat, 3) ∧
    getCoordinates (emptyStore Nat) "Pune"
        (fun _ => (Except.error "boom" : Except String Nat)) 0 =
      (Except.error "boom", emptyStore Nat, 3) ∧
    ((get (emptyStore Nat) "k" 0).2 = emptyStore Nat ∨
      ((get (emptyStore Nat) "k" 0).2 (storageKey "k") = none ∧
        ∀ s, s ≠ storageKey "k" → (get (emptyStore Nat) "k" 0).2 s = emptyStore Nat s)) := by
  have h := claim_C6_failure_no_write Nat String (emptyStore Nat)
    "Aries" "daily" "English" "Pune"
    (fun _ => (Except.error "boom" : Except String Nat))
    (fun _ => (Except.error "boom" : Except String Nat)) 0 "boom" 3 [2000, 4000]
  exact ⟨h.1 (emptyStore Nat) rfl rfl,
    h.2.1 (emptyStore Nat) rfl rfl,
    h.2.2 (emptyStore Nat) "k"⟩

/-! ## Facts about cache-key derivation -/

/-- Claim C8 counterexample: the coordinates key is not insensitive to the
amount of whitespace.  `"a b"` and `"ab"` differ only in whitespace (their
whitespace-stripped characters coincide, even without case folding), yet
they derive different cache keys: each whitespace character is replaced by
an underscore, not collapsed or removed. -/
theorem claim_C8_counterexample :
    ("a b".toList.filter (fun c => ! jsWhitespace c)) =
      ("ab".toList.filter (fun c => ! jsWhitespace c)) ∧
    coordsKey "a b" ≠ coordsKey "ab" := by
  refine ⟨by decide, by decide⟩

/-- Two characters are equivalent for key derivation when they agree up to
letter case, or are both whitespace (each whitespace character maps to the
same underscore). -/
def charCaseWsEquiv (a b : Char) : Prop :=
  a.toLower = b.toLower ∨ (jsWhitespace a = true ∧ jsWhitespace b = true)

instance (a b : Char) : Decidable (charCaseWsEquiv a b) := by
  unfold charCaseWsEquiv
  infer_instance

/-- Lowercasing leaves the whitespace characters unchanged. -/
lemma jsWhitespace_toLower (c : Char) (h : jsWhitespace c = true) :
    c.toLower = c := by
  simp only [jsWhitespace, Bool.or_eq_true, decide_eq_true_eq] at h
  rcases h with ⟨⟨⟨⟨h | h⟩ | h⟩ | h⟩ | h⟩ | h <;> subst h <;> decide

/-- The normalized character lists of `charCaseWsEquiv`-related strings
coincide. -/
lemma normalize_congr (l1 l2 : List Char)
    (h : List.Forall₂ charCaseWsEquiv l1 l2) :
    (l1.map Char.toLower).map (fun c => if jsWhitespace c then '_' else c) =
      (l2.map Char.toLower).map (fun c => if jsWhitespace c then '_' else c) := by
  induction h with
  | nil => rfl
  | cons hab htail ih =>
      simp only [List.map_cons]
      refine congrArg₂ _ ?_ ih
      rcases hab with hcase | ⟨hwa, hwb⟩
      · rw [hcase]
      · rw [jsWhitespace_toLower _ hwa, jsWhitespace_toLower _ hwb]
        simp [hwa, hwb]

/-- Claim C8 amended: cache-key derivation is deterministic (the derived
keys are pure functions of their inputs); `getCoordinates` maps two
location strings to the same key whenever they agree pointwise up to
letter case or pointwise replace whitespace characters by whitespace
characters; and the horoscope key is a pure function of
`(sign, timeframe, language)`.  (Two strings that differ in the *amount*
of whitespace may map to different keys, per the counterexample.) -/
theorem claim_C8_key_determinism (s1 s2 : String)
    (h : List.Forall₂ charCaseWsEquiv s1.toList s2.toList) :
    coordsKey s1 = coordsKey s2 ∧
    ∀ (sign tf lang sign2 tf2 lang2 : String),
      sign = sign2 → tf = tf2 → lang = lang2 →
      horoscopeKey sign tf lang = horoscopeKey sign2 tf2 lang2 := by
  constructor
  · have hl := normalize_congr s1.toList s2.toList h
    exact congrArg (fun l => "coords_" ++ String.mk l) hl
  · rintro sign tf lang sign2 tf2 lang2 rfl rfl rfl
    rfl

/-- Claim C8 amended, witnessed on `"Pune City"` and `"pune\tcity"`
(pointwise case changes plus a space replaced by a tab). -/
theorem claim_C8_key_determinism_witness :
    coordsKey "Pune City" = coordsKey "pune\tcity" ∧
    horoscopeKey "Aries" "daily" "English" = horoscopeKey "Aries" "daily" "English" := by
  have h := claim_C8_key_determinism "Pune City" "pune\tcity"
    (by show List.Forall₂ charCaseWsEquiv
          ['P', 'u', 'n', 'e', ' ', 'C', 'i', 't', 'y']
          ['p', 'u', 'n', 'e', '\t', 'c', 'i', 't', 'y']
        repeat first
          | exact List.Forall₂.nil
          | refine List.Forall₂.cons (by decide) ?_)
  exact ⟨h.1, h.2 "Aries" "daily" "English" "Aries" "daily" "English" rfl rfl rfl⟩

/-! ## Facts about the digit root -/

/-- The fuel argument of `digitSumAux` is irrelevant once adequate. -/
lemma digitSumAux_fuel : ∀ (f1 f2 n : Nat), n ≤ f1 → n ≤ f2 →
    digitSumAux f1 n = digitSumAux f2 n := by
  intro f1
  induction f1 with
  | zero =>
      intro f2 n h1 h2
      have hn : n = 0 := by omega
      subst hn
      cases f2 <;> simp [digitSumAux]
  | succ f ih =>
      intro f2 n h1 h2
      cases f2 with
      | zero =>
          have hn : n = 0 := by omega
          subst hn
          simp [digitSumAux]
      | succ g =>
          by_cases hn : n = 0
          · subst hn; simp [digitSumAux]
          · simp only [digitSumAux, if_neg hn]
            congr 1
            have hd : n / 10 < n := Nat.div_lt_self (Nat.pos_of_ne_zero hn) (by norm_num)
            exact ih g (n / 10) (by omega) (by omega)

/-- Unfolding the digit sum of a positive number. -/
lemma digitSum_succ (n : Nat) (h : 0 < n) :
    digitSum n = n % 10 + digitSum (n / 10) := by
  obtain ⟨m, rfl⟩ : ∃ m, n = m + 1 := ⟨n - 1, by omega⟩
  show digitSumAux (m + 1) (m + 1) = _
  simp only [digitSumAux, if_neg (Nat.succ_ne_zero m)]
  congr 1
  exact digitSumAux_fuel m ((m + 1) / 10) ((m + 1) / 10) (by omega) le_rfl

/-- The digit sum never exceeds the number. -/
lemma digitSum_le : ∀ n : Nat, digitSum n ≤ n := by
  intro n
  induction n using Nat.strong_induction_on with
  | _ n ih =>
      rcases Nat.eq_zero_or_pos n with h | h
      · subst h; simp [digitSum, digitSumAux]
      · rw [digitSum_succ n h]
        have h1 : n / 10 < n := Nat.div_lt_self h (by norm_num)
        have h2 := ih (n / 10) h1
        omega

/-- A one-digit number is its own digit sum. -/
lemma digitSum_eq_self (n : Nat) (h : n ≤ 9) : digitSum n = n := by
  rcases Nat.eq_zero_or_pos n with h0 | h0
  · subst h0; rfl
  · rw [digitSum_succ n h0]
    have hq : n / 10 = 0 := by omega
    rw [hq]
    have h0 : digitSum 0 = 0 := rfl
    omega

/-- The digit sum of a number with at least two digits strictly shrinks. -/
lemma digitSum_lt (n : Nat) (h : 10 ≤ n) : digitSum n < n := by
  rw [digitSum_succ n (by omega)]
  have h1 := digitSum_le (n / 10)
  omega

/-- The digit sum of a positive number is positive. -/
lemma digitSum_pos : ∀ n : Nat, 0 < n → 0 < digitSum n := by
  intro n
  induction n using Nat.strong_induction_on with
  | _ n ih =>
      intro h
      rw [digitSum_succ n h]
      by_cases h10 : n % 10 = 0
      · have hq : 0 < n / 10 := by omega
        have := ih (n / 10) (Nat.div_lt_self h (by norm_num)) hq
        omega
      · omega

/-- The digit sum is congruent to the number modulo 9. -/
lemma digitSum_mod_nine : ∀ n : Nat, digitSum n % 9 = n % 9 := by
  intro n
  induction n using Nat.strong_induction_on with
  | _ n ih =>
      rcases Nat.eq_zero_or_pos n with h | h
      · subst h; rfl
      · rw [digitSum_succ n h]
        have h1 : n / 10 < n := Nat.div_lt_self h (by norm_num)
        have h2 := ih (n / 10) h1
        omega

/-- The fuel argument of `sumDigitsAux` is irrelevant once adequate. -/
lemma sumDigitsAux_fuel : ∀ (f1 f2 n : Nat), n ≤ f1 → n ≤ f2 →
    sumDigitsAux f1 n = sumDigitsAux f2 n := by
  intro f1
  induction f1 with
  | zero =>
      intro f2 n h1 h2
      have hn : n = 0 := by omega
      subst hn
      cases f2 with
      | zero => rfl
      | succ g => simp [sumDigitsAux, digitSum, digitSumAux]
  | succ f ih =>
      intro f2 n h1 h2
      cases f2 with
      | zero =>
          have hn : n = 0 := by omega
          subst hn
          simp [sumDigitsAux, digitSum, digitSumAux]
      | succ g =>
          simp only [sumDigitsAux]
          by_cases h9 : 9 < digitSum n
          · simp only [if_pos h9]
            have hlt : digitSum n < n := by
              rcases Nat.lt_or_ge n 10 with hn | hn
              · have := digitSum_eq_self n (by omega)
                omega
              · exact digitSum_lt n hn
            exact ih g (digitSum n) (by omega) (by omega)
          · simp only [if_neg h9]

/-- The recursion of the source's `sumDigits`: take the digit sum, and
iterate while it exceeds 9. -/
lemma sumDigits_eq (n : Nat) :
    sumDigits n = if 9 < digitSum n then sumDigits (digitSum n) else digitSum n := by
  cases n with
  | zero => decide
  | succ m =>
      show sumDigitsAux (m + 1) (m + 1) = _
      simp only [sumDigitsAux]
      by_cases h9 : 9 < digitSum (m + 1)
      · simp only [if_pos h9]
        have hlt : digitSum (m + 1) < m + 1 := by
          rcases Nat.lt_or_ge (m + 1) 10 with hn | hn
          · have := digitSum_eq_self (m + 1) (by omega)
            omega
          · exact digitSum_lt (m + 1) hn
        exact sumDigitsAux_fuel m (digitSum (m + 1)) (digitSum (m + 1)) (by omega) le_rfl
      · simp only [if_neg h9]

/-- The iterated digit sum of a positive number is its digit root
`1 + (n - 1) % 9`. -/
lemma sumDigits_digitRoot : ∀ n : Nat, 0 < n → sumDigits n = 1 + (n - 1) % 9 := by
  intro n
  induction n using Nat.strong_induction_on with
  | _ n ih =>
      intro h
      rw [sumDigits_eq n]
      have hmod := digitSum_mod_nine n
      have hpos := digitSum_pos n h
      by_cases h9 : 9 < digitSum n
      · simp only [if_pos h9]
        have h10 : 10 ≤ n := by
          by_contra hn
          have := digitSum_eq_self n (by omega)
          omega
        have hlt := digitSum_lt n h10
        rw [ih (digitSum n) hlt hpos]
        omega
      · simp only [if_neg h9]
        omega

/-! ## Facts about date-string processing -/

/-- A digit character is not a dash. -/
lemma isDigitChar_ne_dash (c : Char) (h : isDigitChar c = true) : c ≠ '-' := by
  intro hc
  subst hc
  exact absurd h (by decide)

/-- Splitting a dash-free string yields a single segment. -/
lemma splitOnDash_no_dash (l : List Char) (hl : ∀ c ∈ l, c ≠ '-') :
    splitOnDash l = [l] := by
  induction l with
  | nil => rfl
  | cons c cs ih =>
      have hc : c ≠ '-' := hl c (List.mem_cons_self c cs)
      simp only [splitOnDash, if_neg hc]
      rw [ih (fun x hx => hl x (List.mem_cons_of_mem c hx))]

/-- Splitting peels off a dash-free leading segment. -/
lemma splitOnDash_seg (l rest : List Char) (hl : ∀ c ∈ l, c ≠ '-') :
    splitOnDash (l ++ '-' :: rest) = l :: splitOnDash rest := by
  induction l with
  | nil => simp [splitOnDash]
  | cons c cs ih =>
      have hc : c ≠ '-' := hl c (List.mem_cons_self c cs)
      simp only [List.cons_append, splitOnDash, if_neg hc, List.append_eq]
      rw [ih (fun x hx => hl x (List.mem_cons_of_mem c hx))]

/-- On a nonempty all-digit string, `parseIntJS` parses the whole string. -/
lemma parseIntJS_digits (l : List Char) (hne : l ≠ [])
    (hl : ∀ c ∈ l, isDigitChar c = true) :
    parseIntJS l = some (l.foldl (fun acc c => 10 * acc + digitVal c) 0) := by
  have ht : l.takeWhile isDigitChar = l := List.takeWhile_eq_self_iff.mpr hl
  simp only [parseIntJS, ht]
  rw [if_neg (by simpa [List.isEmpty_iff] using hne)]

/-- The value of an all-zero digit string under decimal accumulation. -/
lemma foldl_digits_all_zero : ∀ (l : List Char) (a : Nat),
    (∀ c ∈ l, digitVal c = 0) →
    l.foldl (fun acc c => 10 * acc + digitVal c) a = a * 10 ^ l.length := by
  intro l
  induction l with
  | nil => intro a _; simp
  | cons c cs ih =>
      intro a h
      have hc : digitVal c = 0 := h c (List.mem_cons_self c cs)
      simp only [List.foldl_cons, hc, List.length_cons]
      rw [ih (10 * a + 0) (fun x hx => h x (List.mem_cons_of_mem c hx))]
      ring

/-- A digit string with positive decimal value has a positive digit. -/
lemma exists_pos_digit_of_pos_value (l : List Char)
    (hv : 1 ≤ l.foldl (fun acc c => 10 * acc + digitVal c) 0) :
    ∃ c ∈ l, 1 ≤ digitVal c := by
  by_contra hall
  push_neg at hall
  have hz : ∀ c ∈ l, digitVal c = 0 := fun c hc => by
    have := hall c hc
    omega
  rw [foldl_digits_all_zero l 0 hz] at hv
  simp at hv

/-- On an all-digit string, the `reduce` of `fullSum` adds up the digit
values. -/
lemma foldl_jsAddParse (l : List Char) :
    ∀ a : Nat, (∀ c ∈ l, isDigitChar c = true) →
    l.foldl jsAddParse (some a) = some (a + (l.map digitVal).sum) := by
  induction l with
  | nil => intro a _; simp
  | cons c cs ih =>
      intro a h
      have hc : isDigitChar c = true := h c (List.mem_cons_self c cs)
      have hstep : jsAddParse (some a) c = some (a + digitVal c) := by
        simp [jsAddParse, hc]
      simp only [List.foldl_cons, hstep, List.map_cons, List.sum_cons]
      rw [ih (a + digitVal c) (fun x hx => h x (List.mem_cons_of_mem c hx))]
      exact congrArg some (by omega)

/-- A well-formed `YYYY-MM-DD` date string: four, two and two digit
characters separated by dashes, whose day component has positive value. -/
def ValidDateStr (s : List Char) : Prop :=
  ∃ y m d : List Char,
    s = y ++ '-' :: (m ++ '-' :: d) ∧
    y.length = 4 ∧ m.length = 2 ∧ d.length = 2 ∧
    (∀ c ∈ y, isDigitChar c = true) ∧
    (∀ c ∈ m, isDigitChar c = true) ∧
    (∀ c ∈ d, isDigitChar c = true) ∧
    1 ≤ d.foldl (fun acc c => 10 * acc + digitVal c) 0

/-- Claim C9: for every positive `n`, `sumDigits n` is the digit root of
`n` — the value `1 + (n - 1) % 9`, always in `1..9` — and consequently,
for every valid date string, the computed Mulank (from the day of month)
and Bhagyank (from all date digits) lie between 1 and 9. -/
theorem claim_C9_digit_root :
    (∀ n : Nat, 0 < n →
      sumDigits n = 1 + (n - 1) % 9 ∧ 1 ≤ sumDigits n ∧ sumDigits n ≤ 9) ∧
    (∀ s : List Char, ValidDateStr s →
      ∃ data, calculateNumerology s = some data ∧
        (∃ mk, data.mulank = some mk ∧ 1 ≤ mk ∧ mk ≤ 9) ∧
        (∃ bk, data.bhagyank = some bk ∧ 1 ≤ bk ∧ bk ≤ 9)) := by
  have hroot : ∀ n : Nat, 0 < n →
      sumDigits n = 1 + (n - 1) % 9 ∧ 1 ≤ sumDigits n ∧ sumDigits n ≤ 9 := by
    intro n h
    have h1 := sumDigits_digitRoot n h
    refine ⟨h1, ?_, ?_⟩ <;> rw [h1] <;> omega
  refine ⟨hroot, ?_⟩
  rintro s ⟨y, m, d, rfl, hy4, hm2, hd2, hyd, hmd, hdd, hdval⟩
  have hyne : y ≠ [] := by
    intro h0
    rw [h0] at hy4
    simp at hy4
  have hdne : d ≠ [] := by
    intro h0
    rw [h0] at hd2
    simp at hd2
  have hne : (y ++ '-' :: (m ++ '-' :: d)).isEmpty = false := by
    cases y with
    | nil => exact absurd rfl hyne
    | cons a ys => rfl
  have hsplit : splitOnDash (y ++ '-' :: (m ++ '-' :: d)) = [y, m, d] := by
    rw [splitOnDash_seg y _ (fun c hc => isDigitChar_ne_dash c (hyd c hc)),
        splitOnDash_seg m _ (fun c hc => isDigitChar_ne_dash c (hmd c hc)),
        splitOnDash_no_dash d (fun c hc => isDigitChar_ne_dash c (hdd c hc))]
  have hday := parseIntJS_digits d hdne hdd
  have hp : ∀ (l : List Char), (∀ c ∈ l, isDigitChar c = true) →
      l.filter notDash = l := fun l hl =>
    List.filter_eq_self.mpr (fun c hc => by
      simp [notDash, isDigitChar_ne_dash c (hl c hc)])
  have hdashf : notDash '-' = false := by decide
  have hfil : (y ++ '-' :: (m ++ '-' :: d)).filter notDash = y ++ (m ++ d) := by
    rw [List.filter_append, List.filter_cons]
    rw [hdashf]
    simp only [Bool.false_eq_true, if_false]
    rw [List.filter_append, List.filter_cons, hdashf]
    simp only [Bool.false_eq_true, if_false]
    rw [hp y hyd, hp m hmd, hp d hdd]
  have hall : ∀ c ∈ y ++ (m ++ d), isDigitChar c = true := by
    intro c hc
    rcases List.mem_append.mp hc with h | h
    · exact hyd c h
    · rcases List.mem_append.mp h with h | h
      · exact hmd c h
      · exact hdd c h
  have hfull : fullSum (y ++ '-' :: (m ++ '-' :: d)) =
      some (0 + ((y ++ (m ++ d)).map digitVal).sum) := by
    unfold fullSum
    rw [hfil]
    exact foldl_jsAddParse (y ++ (m ++ d)) 0 hall
  have hsumpos : 1 ≤ ((y ++ (m ++ d)).map digitVal).sum := by
    obtain ⟨c, hc, hc1⟩ := exists_pos_digit_of_pos_value d hdval
    have hmem : digitVal c ∈ (y ++ (m ++ d)).map digitVal :=
      List.mem_map_of_mem digitVal
        (List.mem_append.mpr (Or.inr (List.mem_append.mpr (Or.inr hc))))
    exact le_trans hc1 (List.le_sum_of_mem hmem)
  have hcalc : calculateNumerology (y ++ '-' :: (m ++ '-' :: d)) = some
      { mulank := some (sumDigits (d.foldl (fun acc c => 10 * acc + digitVal c) 0)),
        bhagyank := some (sumDigits (0 + ((y ++ (m ++ d)).map digitVal).sum)),
        loshu := loshuGrid (y ++ '-' :: (m ++ '-' :: d)) } := by
    unfold calculateNumerology
    rw [if_neg (by simp [hne])]
    simp only [hsplit, List.getD_cons_succ, List.getD_cons_zero, hday, hfull]
    rfl
  refine ⟨_, hcalc, ?_, ?_⟩
  · exact ⟨sumDigits (d.foldl (fun acc c => 10 * acc + digitVal c) 0), rfl,
      (hroot _ hdval).2.1, (hroot _ hdval).2.2⟩
  · have hzero : (0 : Nat) + ((y ++ (m ++ d)).map digitVal).sum =
        ((y ++ (m ++ d)).map digitVal).sum := Nat.zero_add _
    refine ⟨sumDigits ((y ++ (m ++ d)).map digitVal).sum, ?_,
      (hroot _ hsumpos).2.1, (hroot _ hsumpos).2.2⟩
    show some (sumDigits (0 + ((y ++ (m ++ d)).map digitVal).sum)) = _
    rw [hzero]

/-- Claim C9, witnessed at `n = 10` (digit root 1) and on the valid date
string `"1990-05-14"`. -/
theorem claim_C9_digit_root_witness :
    (sumDigits 10 = 1 + (10 - 1) % 9 ∧ 1 ≤ sumDigits 10 ∧ sumDigits 10 ≤ 9) ∧
    calculateNumerology "1990-05-14".toList ≠ none := by
  constructor
  · exact claim_C9_digit_root.1 10 (by decide)
  · obtain ⟨data, hdata, -, -⟩ := claim_C9_digit_root.2 "1990-05-14".toList
      ⟨['1', '9', '9', '0'], ['0', '5'], ['1', '4'], by decide, by decide, by decide,
        by decide, by decide, by decide, by decide, by decide⟩
    rw [hdata]
    simp

/-- Claim C10: every cell `(i, j)` of the Loshu grid computed from a date
string is either `null` or exactly the fixed layout digit
`gridLayout[i][j]`; the layout digit is present exactly when it occurs
among the date's digits (membership only — multiplicity is not
recorded); and the digit 0 never appears in the grid. -/
theorem claim_C10_loshu_grid (s : List Char) (i j : Nat)
    (hi : i < 3) (hj : j < 3) :
    (((loshuGrid s).getD i []).getD j none = none ∨
      ((loshuGrid s).getD i []).getD j none =
        some ((gridLayout.getD i []).getD j 0)) ∧
    (((loshuGrid s).getD i []).getD j none =
        some ((gridLayout.getD i []).getD j 0) ↔
      some ((gridLayout.getD i []).getD j 0) ∈ dateNumbers s) ∧
    ((loshuGrid s).getD i []).getD j none ≠ some 0 := by
  interval_cases i <;> interval_cases j <;>
    simp only [loshuGrid, gridLayout, List.map_cons, List.map_nil,
      List.getD_cons_zero, List.getD_cons_succ] <;>
    refine ⟨?_, ?_, ?_⟩ <;> split_ifs with hmem <;> simp [hmem]

/-- Claim C10, witnessed at cell `(0, 0)` of the grid computed from
`"1990-05-14"` (layout digit 4, which occurs in the date). -/
theorem claim_C10_loshu_grid_witness :
    ((((loshuGrid "1990-05-14".toList).getD 0 []).getD 0 none = none ∨
      ((loshuGrid "1990-05-14".toList).getD 0 []).getD 0 none =
        some ((gridLayout.getD 0 []).getD 0 0)) ∧
    (((loshuGrid "1990-05-14".toList).getD 0 []).getD 0 none =
        some ((gridLayout.getD 0 []).getD 0 0) ↔
      some ((gridLayout.getD 0 []).getD 0 0) ∈ dateNumbers "1990-05-14".toList) ∧
    ((loshuGrid "1990-05-14".toList).getD 0 []).getD 0 none ≠ some 0) :=
  claim_C10_loshu_grid "1990-05-14".toList 0 0 (by decide) (by decide)

end WhatMyStarsSays
